import Mathlib

/-!
Verification of the Device Backup Session Engine
(`src/netcfgbu/netcfgbu_ssh.py`, class `ConfigBackupSSHSpec`).

Text is modelled as `List Char`.  Python string primitives used by the
source (`str.rfind`, slicing with a possibly-negative bound) are embedded
with their Python semantics (`pyRfind`, `pyTake`).
-/

namespace Netcfgbu

/-- Text, as a list of characters. -/
abbrev Str := List Char

/-! ## Prompt matcher

Embedding of
`PROMPT_PATTERN = re.compile(r"^\r?([a-z0-9.\-_@()/:]{1,32}\s*[#>$])\s*$", flags=(re.M | re.I))`
used through `PROMPT_PATTERN.match(...)`.

The only call site (`read_until_prompt`) applies `.match` to
`output[nl_at + 1:]`, the text after the last `'\n'` of the buffer, which
therefore contains no `'\n'`; the embedding models the pattern on such
newline-free candidate text.  On it, `$` (even with `re.M`) is end of
input.  The alphabets of the three regex pieces (name class, `\s`,
terminators `# > $`) are pairwise disjoint, so the backtracking search has
a unique possible decomposition: optional `'\r'`, then the maximal run of
name-class characters (which must have length 1..32), then a maximal run
of whitespace, then exactly one terminator, then only whitespace.
-/

/-- One character of the character class `[a-z0-9.\-_@()/:]` under `re.I`. -/
def isPromptBodyChar (c : Char) : Bool :=
  (('a' ≤ c) && (c ≤ 'z')) || (('A' ≤ c) && (c ≤ 'Z')) ||
  (('0' ≤ c) && (c ≤ '9')) ||
  (c = '.') || (c = '-') || (c = '_') || (c = '@') ||
  (c = '(') || (c = ')') || (c = '/') || (c = ':')

/-- Python `\s` on ASCII text: space, tab, newline, carriage return,
vertical tab, form feed. -/
def isPySpace (c : Char) : Bool :=
  (c = ' ') || (c = '\t') || (c = '\n') || (c = '\r') ||
  (c = '\x0b') || (c = '\x0c')

/-- One of the prompt terminators `[#>$]`. -/
def isTermChar (c : Char) : Bool :=
  (c = '#') || (c = '>') || (c = '$')

/-- The leading `\r?` of the pattern: consume one leading carriage return
when present.  (Not consuming it could never help: `'\r'` is not in the
name class, so the body `{1,32}` would fail at once.) -/
def stripLeadingCR (s : Str) : Str :=
  match s with
  | c :: rest => if c = '\r' then rest else s
  | [] => s

/-- `PROMPT_PATTERN.match` on newline-free candidate text after the
optional carriage return has been stripped.  Returns `group(1)` =
`name ++ inner whitespace ++ terminator` on success. -/
def promptMatchCore (s1 : Str) : Option Str :=
  if s1.takeWhile isPromptBodyChar ≠ [] ∧
      (s1.takeWhile isPromptBodyChar).length ≤ 32 then
    match (s1.dropWhile isPromptBodyChar).dropWhile isPySpace with
    | [] => none
    | t :: r3 =>
      if isTermChar t && r3.all isPySpace then
        some (s1.takeWhile isPromptBodyChar ++
          (s1.dropWhile isPromptBodyChar).takeWhile isPySpace ++ [t])
      else none
  else none

/-- `PROMPT_PATTERN.match(s)`: `some group(1)` when the pattern matches the
candidate line `s`, else `none`. -/
def promptMatch (s : Str) : Option Str :=
  promptMatchCore (stripLeadingCR s)

/-! ## Python string primitives used by `read_until_prompt` -/

/-- Index of the last occurrence of `c` in `l` (as a `Nat`), or `none`. -/
def pyRfindAux (c : Char) : Str → Option Nat
  | [] => none
  | x :: xs =>
    match pyRfindAux c xs with
    | some j => some (j + 1)
    | none => if x = c then some 0 else none

/-- Python `s.rfind(c)`: index of the last occurrence, or `-1`. -/
def pyRfind (s : Str) (c : Char) : Int :=
  match pyRfindAux c s with
  | some i => (i : Int)
  | none => -1

/-- Python slice `s[0:i]` for a possibly negative bound `i`
(`s[0:-1]` drops the last element). -/
def pyTake (s : Str) (i : Int) : Str :=
  if 0 ≤ i then s.take i.toNat else s.take (s.length - i.natAbs)

/-! ## `read_until_prompt` / `run_command`

```
async def read_until_prompt(self):
    output = ''
    while True:
        output += await self.process.stdout.read(io.DEFAULT_BUFFER_SIZE)
        nl_at = output.rfind('\n')
        if mobj := self.PROMPT_PATTERN.match(output[nl_at + 1:]):
            self._cur_prompt = mobj.group(1)
            return output[0:nl_at]
```

The byte stream is modelled by the list of chunks the successive
`stdout.read` calls deliver; exhausting the list without a match models
the loop never returning (the device never shows a prompt).
-/

/-- The body of one loop iteration (with `nl_at = output.rfind('\n')`
substituted at both of its uses): given the accumulated buffer, either
`some (returned output, recorded prompt)` or `none` (keep reading). -/
def detectPrompt (buf : Str) : Option (Str × Str) :=
  match promptMatch (buf.drop (pyRfind buf '\n' + 1).toNat) with
  | some p => some (pyTake buf (pyRfind buf '\n'), p)
  | none => none

/-- `read_until_prompt`, driven by the chunk list. -/
def readUntilPrompt (buf : Str) : List Str → Option (Str × Str)
  | [] => none
  | c :: rest =>
    match detectPrompt (buf ++ c) with
    | some r => some r
    | none => readUntilPrompt (buf ++ c) rest

/-- `wr_cmd = command + "\n"`, the text written to the channel. -/
def wr_cmd (command : Str) : Str := command ++ ['\n']

/-- `run_command`: write `wr_cmd`, read until a prompt, return
`output[len(wr_cmd) + 1:]`.  The chunk list is what the channel delivers
(the device's echo included). -/
def run_command (command : Str) (chunks : List Str) : Option Str :=
  (readUntilPrompt [] chunks).map (fun r => r.1.drop ((wr_cmd command).length + 1))

/-! ## Login (credential iteration)

```
creds = copy(self.app_cfg['credentials'])
host_creds = dict(username=self.host_cfg.get('username'),
                  password=self.host_cfg.get('password'))
if all(host_creds.values()):
    creds.insert(0, host_creds)
for try_cred in creds:
    try:
        ...
        self.conn = await asyncio.wait_for(asyncssh.connect(**self.conn_args), timeout=60)
        ...
        return self.conn
    except asyncssh.PermissionDenied as exc:
        self.failed = exc
        continue
raise asyncssh.PermissionDenied(reason=f'No valid username/password ({len(creds)})')
```

A connection attempt is abstracted as a function from the credential to
its outcome: success, `asyncssh.PermissionDenied`, or any other
exception (tagged by a number).
-/

/-- A username/password pair. -/
structure Cred where
  username : Str
  password : Str
deriving DecidableEq

/-- Python truthiness of `host_cfg.get('username')`: a present, non-empty
string. -/
def truthy : Option Str → Bool
  | none => false
  | some s => !s.isEmpty

/-- The host-specific credential dict built from the host configuration. -/
def hostCred (hu hp : Option Str) : Cred :=
  ⟨hu.getD [], hp.getD []⟩

/-- The effective candidate list: the host-specific credential is
prepended exactly when both of its fields are truthy. -/
def effectiveCreds (hu hp : Option Str) (globalCreds : List Cred) : List Cred :=
  if truthy hu && truthy hp then hostCred hu hp :: globalCreds else globalCreds

/-- Outcome of one `asyncssh.connect` attempt with a given credential. -/
inductive ConnectOutcome where
  | ok
  | authRejected
  | otherErr (k : Nat)
deriving DecidableEq

/-- How `login()` terminates. -/
inductive LoginResult where
  | success (c : Cred)
  | allRejected (count : Nat)
  | error (k : Nat)
deriving DecidableEq

/-- The `for try_cred in creds` loop; `total` is `len(creds)` carried by
the final `PermissionDenied`. -/
def loginGo (attempt : Cred → ConnectOutcome) (total : Nat) : List Cred → LoginResult
  | [] => .allRejected total
  | c :: rest =>
    match attempt c with
    | .ok => .success c
    | .authRejected => loginGo attempt total rest
    | .otherErr k => .error k

/-- `login()`. -/
def login (attempt : Cred → ConnectOutcome) (hu hp : Option Str)
    (globalCreds : List Cred) : LoginResult :=
  let creds := effectiveCreds hu hp globalCreds
  loginGo attempt creds.length creds

/-- The credentials the loop actually attempts, in order: every candidate
up to and including the first whose outcome is not `PermissionDenied`. -/
def attemptedCreds (attempt : Cred → ConnectOutcome) : List Cred → List Cred
  | [] => []
  | c :: rest =>
    match attempt c with
    | .authRejected => c :: attemptedCreds attempt rest
    | _ => [c]

/-! ## `get_running_config` (interactive path)

```
at_prompt = False
paging_disabled = False
try:
    await asyncio.wait_for(self.read_until_prompt(), timeout=30)
    at_prompt = True
    await asyncio.wait_for(self.run_disable_paging(), timeout=30)
    paging_disabled = True
    self.config = await asyncio.wait_for(self.run_command(command), timeout=120)
except asyncio.TimeoutError:
    raise RuntimeError('Timeout when getting running configuraiton',
                       dict(at_prompt=at_prompt, paging_disabled=paging_disabled))
```

Each timeout-bounded phase is abstracted by its outcome; the final phase
carries the captured text when it completes.
-/

/-- Whether a timeout-bounded phase completes within its budget. -/
inductive PhaseOutcome where
  | completes
  | timesOut
deriving DecidableEq

/-- Result of the interactive capture. -/
inductive GetConfigResult where
  | captured (cfg : Str)
  | phaseTimeout (at_prompt paging_disabled : Bool)
deriving DecidableEq

/-- The interactive path of `get_running_config`. -/
def get_running_config_interactive (promptSync pagingPhase : PhaseOutcome)
    (showPhase : Option Str) : GetConfigResult := Id.run do
  let mut at_prompt := false
  let mut paging_disabled := false
  if promptSync = .timesOut then
    return .phaseTimeout at_prompt paging_disabled
  at_prompt := true
  if pagingPhase = .timesOut then
    return .phaseTimeout at_prompt paging_disabled
  paging_disabled := true
  match showPhase with
  | none => return .phaseTimeout at_prompt paging_disabled
  | some cfg => return .captured cfg

/-! ## `backup_config` / `save_config`

```
async def backup_config(self):
    async with await self.login():
        try:
            await self.get_running_config()
        except Exception as exc:
            self.log.error(f"BACKUP FAILED: {str(exc)}")
        finally:
            await self.close()
    if self.config:
        await self.save_config()
    return self

async def save_config(self):
    self.save_file = Path(...configs_dir) / f"{self.name}.cfg"
    ... write self.config.replace("\r", "") ... write "\n"
```

`await self.login()` sits outside the `try`; only the capture phase is
guarded.  `loginRes` abstracts the outcome of `login()` (exceptions
tagged by a number), `captureRes` the outcome of `get_running_config()`
(which assigns `self.config` only on success).
-/

/-- The fields of the returned session object that the claims observe:
`config`, `save_file`, and what `save_config` wrote (path, contents). -/
structure BackupReturn where
  config : Option Str
  save_file : Option Str
  written : Option (Str × Str)
deriving DecidableEq

/-- `backup_config` either returns the session object or lets an
exception escape to the caller. -/
inductive BackupOutcome where
  | raised (e : Nat)
  | returned (r : BackupReturn)
deriving DecidableEq

/-- Python truthiness of `self.config` (`None` and `''` are falsy). -/
def configTruthy : Option Str → Bool
  | none => false
  | some s => !s.isEmpty

/-- `self.config.replace("\r", "")`. -/
def stripCR (s : Str) : Str := s.filter (fun c => c ≠ '\r')

/-- `save_config`: the file path `<name>.cfg` and the written contents. -/
def save_config (name : Str) (config : Str) : Str × Str :=
  (name ++ ".cfg".data, stripCR config ++ ['\n'])

/-- `backup_config`. -/
def backup_config (loginRes : Except Nat Unit) (captureRes : Except Nat Str)
    (name : Str) : BackupOutcome :=
  match loginRes with
  | .error e => .raised e
  | .ok _ =>
    let config : Option Str :=
      match captureRes with
      | .ok cfg => some cfg
      | .error _ => none
    if configTruthy config then
      let w := save_config name (config.getD [])
      .returned ⟨config, some w.1, some w⟩
    else
      .returned ⟨config, none, none⟩

/-! ## Admission throttle

Modelled from the spec: the Admission Throttle (`asyncio.Semaphore`,
held by `_max_startups_sem4` and entered with
`async with self.__class__._max_startups_sem4:` around the connect
phase) is collaborator code outside this repository; its contract —
`acquire()` suspends until a slot is free, `release()` frees one and
wakes at most one waiter — is embedded as a labelled transition system
over an explicit semaphore state.  Tasks are identified by numbers;
waiters queue in FIFO order.
-/

/-- Semaphore state: the configured limit, the free-slot count, the tasks
currently holding a slot (inside their connect phase), and the queued
waiters. -/
structure Sem where
  limit : Nat
  value : Nat
  holders : List Nat
  waiters : List Nat
deriving DecidableEq

/-- A freshly created semaphore with `n` slots. -/
def Sem.init (n : Nat) : Sem := ⟨n, n, [], []⟩

/-- Transition labels: task `t` calls `acquire`, or task `t` calls
`release`. -/
inductive SemLabel where
  | acq (t : Nat)
  | rel (t : Nat)
deriving DecidableEq

/-- One semaphore transition. -/
inductive SemStep : SemLabel → Sem → Sem → Prop where
  | acquireNow (s : Sem) (t : Nat) (h : 0 < s.value) :
      SemStep (.acq t) s ⟨s.limit, s.value - 1, t :: s.holders, s.waiters⟩
  | acquireWait (s : Sem) (t : Nat) (h : s.value = 0) :
      SemStep (.acq t) s ⟨s.limit, 0, s.holders, s.waiters ++ [t]⟩
  | releaseNoWaiter (s : Sem) (t : Nat) (h : t ∈ s.holders) (hw : s.waiters = []) :
      SemStep (.rel t) s ⟨s.limit, s.value + 1, s.holders.erase t, []⟩
  | releaseWake (s : Sem) (t w : Nat) (rest : List Nat)
      (h : t ∈ s.holders) (hw : s.waiters = w :: rest) :
      SemStep (.rel t) s ⟨s.limit, s.value, w :: s.holders.erase t, rest⟩

/-- States reachable from `Sem.init n`. -/
inductive SemReachable (n : Nat) : Sem → Prop where
  | init : SemReachable n (Sem.init n)
  | step (l : SemLabel) (s s' : Sem) :
      SemReachable n s → SemStep l s s' → SemReachable n s'

/-- The throttle invariant: slots are conserved, and nobody waits while a
slot is free. -/
def SemInv (n : Nat) (s : Sem) : Prop :=
  s.limit = n ∧ s.holders.length + s.value = n ∧ (s.waiters ≠ [] → s.value = 0)

/-- The shape the amended prompt claim ascribes to accepted candidate
lines: an optional carriage return, a name of 1..32 class characters,
optional whitespace, a terminator, optional trailing whitespace. -/
def promptShape (s : Str) : Prop :=
  ∃ (r : Bool) (body ws1 ws2 : Str) (t : Char),
    s = (if r then ['\r'] else []) ++ body ++ ws1 ++ t :: ws2 ∧
    body ≠ [] ∧ body.length ≤ 32 ∧ body.all isPromptBodyChar ∧
    ws1.all isPySpace ∧ isTermChar t ∧ ws2.all isPySpace

/-! ## Helper lemmas -/

theorem dropWhile_head_false (p : Char → Bool) :
    ∀ (l : Str) (y : Char) (ys : Str), l.dropWhile p = y :: ys → p y = false := by
  intro l
  induction l with
  | nil => intro y ys h; simp [List.dropWhile] at h
  | cons x xs ih =>
    intro y ys h
    by_cases hx : p x = true
    · rw [List.dropWhile_cons_of_pos hx] at h
      exact ih y ys h
    · rw [List.dropWhile_cons_of_neg hx] at h
      cases h
      simpa using hx

/-- Computing `takeWhile`/`dropWhile` on a split where every element of
`xs` satisfies `p` and the head of `ys` (when present) does not. -/
theorem takeWhile_dropWhile_split (p : Char → Bool) (xs ys : Str)
    (h1 : ∀ x ∈ xs, p x = true)
    (h2 : ∀ y ys', ys = y :: ys' → p y = false) :
    (xs ++ ys).takeWhile p = xs ∧ (xs ++ ys).dropWhile p = ys := by
  induction xs with
  | nil =>
    cases ys with
    | nil => simp
    | cons y ys' =>
      have hy := h2 y ys' rfl
      constructor
      · simp only [List.nil_append]
        rw [List.takeWhile_cons_of_neg (by simp [hy])]
      · simp only [List.nil_append]
        rw [List.dropWhile_cons_of_neg (by simp [hy])]
  | cons x xs ih =>
    have hx : p x = true := h1 x (by simp)
    have ih' := ih (fun a ha => h1 a (by simp [ha]))
    rw [List.cons_append]
    constructor
    · rw [List.takeWhile_cons_of_pos hx, ih'.1]
    · rw [List.dropWhile_cons_of_pos hx, ih'.2]

theorem pyRfindAux_none (c : Char) :
    ∀ (l : Str), pyRfindAux c l = none → c ∉ l := by
  intro l
  induction l with
  | nil => simp
  | cons x xs ih =>
    intro h
    rw [pyRfindAux] at h
    cases hrec : pyRfindAux c xs with
    | some j => rw [hrec] at h; exact absurd h (by simp)
    | none =>
      rw [hrec] at h
      by_cases hx : x = c
      · simp [hx] at h
      · intro hmem
        rcases List.mem_cons.mp hmem with h1 | h1
        · exact hx h1.symm
        · exact ih hrec h1

theorem pyRfindAux_some (c : Char) :
    ∀ (l : Str) (i : Nat), pyRfindAux c l = some i →
      ∃ pre post, l = pre ++ c :: post ∧ pre.length = i ∧ c ∉ post := by
  intro l
  induction l with
  | nil => intro i h; simp [pyRfindAux] at h
  | cons x xs ih =>
    intro i h
    rw [pyRfindAux] at h
    cases hrec : pyRfindAux c xs with
    | some j =>
      rw [hrec] at h
      obtain ⟨pre, post, heq, hlen, hnotin⟩ := ih j hrec
      refine ⟨x :: pre, post, by rw [heq]; rfl, ?_, hnotin⟩
      simp at h
      simp [hlen, ← h]
    | none =>
      rw [hrec] at h
      by_cases hx : x = c
      · rw [if_pos hx] at h
        have h0 : (some 0 : Option Nat) = some i := h
        have h0' : i = 0 := by simpa using h0.symm
        subst h0'
        exact ⟨[], xs, by simp [hx], rfl, pyRfindAux_none c xs hrec⟩
      · rw [if_neg hx] at h
        exact Option.noConfusion h

/-- What a successful loop-body test says about the buffer: either the
buffer has a last newline and the returned output is everything strictly
before it, or it has none and the returned output is the buffer minus
its final character (`output[0:-1]`); in both cases the matched candidate
is the recorded prompt. -/
theorem detectPrompt_eq_some (buf out p : Str)
    (h : detectPrompt buf = some (out, p)) :
    (∃ tail, buf = out ++ '\n' :: tail ∧ '\n' ∉ tail ∧ promptMatch tail = some p) ∨
    ('\n' ∉ buf ∧ out = buf.dropLast ∧ promptMatch buf = some p) := by
  unfold detectPrompt at h
  cases hfind : pyRfindAux '\n' buf with
  | none =>
    right
    have hnotin := pyRfindAux_none '\n' buf hfind
    have hrf : pyRfind buf '\n' = -1 := by unfold pyRfind; rw [hfind]
    rw [hrf] at h
    have h0 : ((-1 : Int) + 1).toNat = 0 := by decide
    rw [h0, List.drop_zero] at h
    cases hm : promptMatch buf with
    | none => rw [hm] at h; exact absurd h (by simp)
    | some q =>
      rw [hm] at h
      simp only [Option.some.injEq, Prod.mk.injEq] at h
      refine ⟨hnotin, ?_, by rw [h.2]⟩
      rw [← h.1]
      unfold pyTake
      rw [if_neg (by decide)]
      simpa using (List.dropLast_eq_take buf).symm
  | some i =>
    left
    obtain ⟨pre, post, heq, hlen, hnotin⟩ := pyRfindAux_some '\n' buf i hfind
    have hrf : pyRfind buf '\n' = (i : Int) := by unfold pyRfind; rw [hfind]
    rw [hrf] at h
    have h1 : ((i : Int) + 1).toNat = i + 1 := by omega
    rw [h1] at h
    have hdrop : buf.drop (i + 1) = post := by
      rw [heq, ← hlen]
      have : pre ++ '\n' :: post = (pre ++ ['\n']) ++ post := by simp
      rw [this]
      have hlen2 : pre.length + 1 = (pre ++ ['\n']).length := by simp
      rw [hlen2]
      exact List.drop_left _ _
    rw [hdrop] at h
    cases hm : promptMatch post with
    | none => rw [hm] at h; exact absurd h (by simp)
    | some q =>
      rw [hm] at h
      simp only [Option.some.injEq, Prod.mk.injEq] at h
      have htake : pyTake buf (i : Int) = pre := by
        unfold pyTake
        rw [if_pos (by omega)]
        have : ((i : Int)).toNat = i := by omega
        rw [this, heq, ← hlen]
        exact List.take_left _ _
      refine ⟨post, ?_, hnotin, h.2 ▸ hm⟩
      rw [← h.1, htake, heq]

/-- If the loop returns, the return is produced by the loop-body test at
the first chunk index `k` at which it fires. -/
theorem readUntilPrompt_spec :
    ∀ (chunks : List Str) (buf out p : Str),
      readUntilPrompt buf chunks = some (out, p) →
      ∃ k, 1 ≤ k ∧ k ≤ chunks.length ∧
        detectPrompt (buf ++ (chunks.take k).flatten) = some (out, p) ∧
        ∀ j, 1 ≤ j → j < k → detectPrompt (buf ++ (chunks.take j).flatten) = none := by
  intro chunks
  induction chunks with
  | nil => intro buf out p h; simp [readUntilPrompt] at h
  | cons c rest ih =>
    intro buf out p h
    rw [readUntilPrompt] at h
    cases hd : detectPrompt (buf ++ c) with
    | some r =>
      rw [hd] at h
      simp only [Option.some.injEq] at h
      refine ⟨1, le_refl 1, by simp, ?_, ?_⟩
      · simpa [h] using hd
      · intro j h1 h2; omega
    | none =>
      rw [hd] at h
      obtain ⟨k, hk1, hk2, hdet, hprev⟩ := ih (buf ++ c) out p h
      refine ⟨k + 1, by omega, by simpa using Nat.succ_le_succ hk2, ?_, ?_⟩
      · simpa [List.append_assoc] using hdet
      · intro j hj1 hjk
        cases j with
        | zero => omega
        | succ j' =>
          cases j' with
          | zero => simpa using hd
          | succ j'' =>
            have := hprev (j'' + 1) (by omega) (by omega)
            simpa [List.append_assoc] using this

/-- If the loop-body test fires on the full accumulated stream, the loop
returns (at the latest, on the final chunk). -/
theorem readUntilPrompt_complete :
    ∀ (chunks : List Str) (buf : Str), chunks ≠ [] →
      detectPrompt (buf ++ chunks.flatten) ≠ none →
      (readUntilPrompt buf chunks).isSome := by
  intro chunks
  induction chunks with
  | nil => intro buf hne _; exact absurd rfl hne
  | cons c rest ih =>
    intro buf _ hdet
    rw [readUntilPrompt]
    cases hd : detectPrompt (buf ++ c) with
    | some r => simp
    | none =>
      cases hrest : rest with
      | nil =>
        subst hrest
        simp only [List.flatten, List.append_nil] at hdet
        exact absurd hd (by simpa using hdet)
      | cons r rs =>
        have := ih (buf ++ c) (by simp [hrest])
          (by simpa [List.append_assoc] using hdet)
        rw [hrest] at this
        simpa using this

/-- A loop that only ever sees `PermissionDenied` falls through and
raises with the carried total. -/
theorem loginGo_all_rejected (attempt : Cred → ConnectOutcome) (total : Nat) :
    ∀ (l : List Cred), (∀ c ∈ l, attempt c = .authRejected) →
      loginGo attempt total l = .allRejected total := by
  intro l
  induction l with
  | nil => intro _; rfl
  | cons c rest ih =>
    intro h
    rw [loginGo, h c (by simp)]
    exact ih (fun a ha => h a (by simp [ha]))

/-- Under the same hypothesis every candidate is attempted. -/
theorem attemptedCreds_all_rejected (attempt : Cred → ConnectOutcome) :
    ∀ (l : List Cred), (∀ c ∈ l, attempt c = .authRejected) →
      attemptedCreds attempt l = l := by
  intro l
  induction l with
  | nil => intro _; rfl
  | cons c rest ih =>
    intro h
    rw [attemptedCreds, h c (by simp)]
    rw [ih (fun a ha => h a (by simp [ha]))]

/-- The attempted candidates always form a prefix of the candidate list. -/
theorem attemptedCreds_take (attempt : Cred → ConnectOutcome) :
    ∀ (l : List Cred), ∃ n, attemptedCreds attempt l = l.take n := by
  intro l
  induction l with
  | nil => exact ⟨0, rfl⟩
  | cons c rest ih =>
    rw [attemptedCreds]
    cases hc : attempt c with
    | ok => exact ⟨1, by simp⟩
    | authRejected =>
      obtain ⟨n, hn⟩ := ih
      exact ⟨n + 1, by rw [List.take_succ_cons, hn]⟩
    | otherErr k => exact ⟨1, by simp⟩

/-! ## Semaphore invariant -/

theorem semInv_init (n : Nat) : SemInv n (Sem.init n) :=
  ⟨rfl, by simp [Sem.init], fun h => absurd rfl h⟩

theorem semInv_step (n : Nat) (l : SemLabel) (s s' : Sem)
    (hinv : SemInv n s) (hstep : SemStep l s s') : SemInv n s' := by
  obtain ⟨hlim, hsum, hwait⟩ := hinv
  cases hstep with
  | acquireNow s t h =>
    refine ⟨hlim, ?_, ?_⟩
    · simp only [Sem.holders, Sem.value, List.length_cons]
      omega
    · intro hw
      have := hwait hw
      omega
  | acquireWait s t h =>
    refine ⟨hlim, ?_, fun _ => rfl⟩
    simp only [Sem.holders, Sem.value]
    omega
  | releaseNoWaiter s t h hw =>
    have hlen := List.length_erase_of_mem h
    have hpos := List.length_pos_of_mem h
    refine ⟨hlim, ?_, by simp⟩
    simp only [Sem.holders, Sem.value, hlen]
    omega
  | releaseWake s t w rest h hw =>
    have hlen := List.length_erase_of_mem h
    have hpos := List.length_pos_of_mem h
    refine ⟨hlim, ?_, ?_⟩
    · simp only [Sem.holders, Sem.value, List.length_cons, hlen]
      omega
    · intro _
      exact hwait (by rw [hw]; simp)

theorem semReachable_inv (n : Nat) (s : Sem) (h : SemReachable n s) :
    SemInv n s := by
  induction h with
  | init => exact semInv_init n
  | step l s s' _ hstep ih => exact semInv_step n l s s' ih hstep

/-! ## Characterization of the matcher -/

theorem isPySpace_not_body (c : Char) (h : isPySpace c = true) :
    isPromptBodyChar c = false := by
  simp only [isPySpace, Bool.or_eq_true, decide_eq_true_eq] at h
  rcases h with ((((h | h) | h) | h) | h) | h <;> subst h <;> decide

theorem isTermChar_not_body (c : Char) (h : isTermChar c = true) :
    isPromptBodyChar c = false := by
  simp only [isTermChar, Bool.or_eq_true, decide_eq_true_eq] at h
  rcases h with (h | h) | h <;> subst h <;> decide

theorem isTermChar_not_space (c : Char) (h : isTermChar c = true) :
    isPySpace c = false := by
  simp only [isTermChar, Bool.or_eq_true, decide_eq_true_eq] at h
  rcases h with (h | h) | h <;> subst h <;> decide

theorem promptMatchCore_isSome_iff (s1 : Str) :
    (promptMatchCore s1).isSome = true ↔
      ∃ (body ws1 ws2 : Str) (t : Char),
        s1 = body ++ ws1 ++ t :: ws2 ∧ body ≠ [] ∧ body.length ≤ 32 ∧
        body.all isPromptBodyChar = true ∧ ws1.all isPySpace = true ∧
        isTermChar t = true ∧ ws2.all isPySpace = true := by
  constructor
  · intro h
    unfold promptMatchCore at h
    by_cases hcond : s1.takeWhile isPromptBodyChar ≠ [] ∧
        (s1.takeWhile isPromptBodyChar).length ≤ 32
    · rw [if_pos hcond] at h
      cases hr2 : (s1.dropWhile isPromptBodyChar).dropWhile isPySpace with
      | nil => rw [hr2] at h; simp at h
      | cons t r3 =>
        rw [hr2] at h
        by_cases hterm : (isTermChar t && r3.all isPySpace) = true
        · obtain ⟨ht1, ht2⟩ : isTermChar t = true ∧ r3.all isPySpace = true := by
            simpa using hterm
          refine ⟨s1.takeWhile isPromptBodyChar,
            (s1.dropWhile isPromptBodyChar).takeWhile isPySpace, r3, t,
            ?_, hcond.1, hcond.2, ?_, ?_, ht1, ht2⟩
          · conv_lhs => rw [← List.takeWhile_append_dropWhile
              (p := isPromptBodyChar) (l := s1)]
            rw [List.append_assoc]
            congr 1
            conv_lhs => rw [← List.takeWhile_append_dropWhile
              (p := isPySpace) (l := s1.dropWhile isPromptBodyChar)]
            rw [hr2]
          · rw [List.all_eq_true]
            intro x hx
            exact List.mem_takeWhile_imp hx
          · rw [List.all_eq_true]
            intro x hx
            exact List.mem_takeWhile_imp hx
        · simp [hterm] at h
    · rw [if_neg hcond] at h
      simp at h
  · rintro ⟨body, ws1, ws2, t, heq, hne, hlen, hball, hws1, hterm, hws2⟩
    have hhead1 : ∀ y ys', ws1 ++ t :: ws2 = y :: ys' →
        isPromptBodyChar y = false := by
      intro y ys' hy
      cases ws1 with
      | nil =>
        simp only [List.nil_append, List.cons.injEq] at hy
        exact hy.1 ▸ isTermChar_not_body t hterm
      | cons w ws' =>
        simp only [List.cons_append, List.cons.injEq] at hy
        have hw : isPySpace w = true := List.all_eq_true.mp hws1 w (by simp)
        exact hy.1 ▸ isPySpace_not_body w hw
    have hhead2 : ∀ y ys', t :: ws2 = y :: ys' → isPySpace y = false := by
      intro y ys' hy
      simp only [List.cons.injEq] at hy
      exact hy.1 ▸ isTermChar_not_space t hterm
    have hsplit1 := takeWhile_dropWhile_split isPromptBodyChar body
      (ws1 ++ t :: ws2) (List.all_eq_true.mp hball) hhead1
    have hsplit2 := takeWhile_dropWhile_split isPySpace ws1 (t :: ws2)
      (List.all_eq_true.mp hws1) hhead2
    have heq' : s1 = body ++ (ws1 ++ t :: ws2) := by
      rw [heq, List.append_assoc]
    rw [heq']
    unfold promptMatchCore
    rw [hsplit1.1, hsplit1.2, hsplit2.2]
    rw [if_pos ⟨hne, hlen⟩]
    simp [hterm, hws2]

/-- The full matcher accepts exactly the lines of `promptShape`. -/
theorem promptMatch_isSome_iff (s : Str) :
    (promptMatch s).isSome = true ↔ promptShape s := by
  constructor
  · intro h
    unfold promptMatch at h
    cases s with
    | nil =>
      rw [show stripLeadingCR [] = [] from rfl] at h
      obtain ⟨body, ws1, ws2, t, heq, hne, _⟩ :=
        (promptMatchCore_isSome_iff []).mp h
      exact absurd heq.symm (by simp)
    | cons c cs =>
      by_cases hc : c = '\r'
      · subst hc
        rw [show stripLeadingCR ('\r' :: cs) = cs from by
          simp [stripLeadingCR]] at h
        obtain ⟨body, ws1, ws2, t, heq, hne, hlen, hball, hws1, hterm, hws2⟩ :=
          (promptMatchCore_isSome_iff cs).mp h
        exact ⟨true, body, ws1, ws2, t, by simp [heq], hne, hlen, hball,
          hws1, hterm, hws2⟩
      · rw [show stripLeadingCR (c :: cs) = c :: cs from by
          simp [stripLeadingCR, hc]] at h
        obtain ⟨body, ws1, ws2, t, heq, hne, hlen, hball, hws1, hterm, hws2⟩ :=
          (promptMatchCore_isSome_iff (c :: cs)).mp h
        exact ⟨false, body, ws1, ws2, t, by simp [heq], hne, hlen, hball,
          hws1, hterm, hws2⟩
  · rintro ⟨r, body, ws1, ws2, t, heq, hne, hlen, hball, hws1, hterm, hws2⟩
    unfold promptMatch
    cases r with
    | true =>
      have heq2 : s = '\r' :: (body ++ ws1 ++ t :: ws2) := by
        rw [heq]; simp
      rw [heq2]
      rw [show stripLeadingCR ('\r' :: (body ++ ws1 ++ t :: ws2)) =
          body ++ ws1 ++ t :: ws2 from by simp [stripLeadingCR]]
      exact (promptMatchCore_isSome_iff _).mpr
        ⟨body, ws1, ws2, t, rfl, hne, hlen, hball, hws1, hterm, hws2⟩
    | false =>
      have heq2 : s = body ++ ws1 ++ t :: ws2 := by
        rw [heq]; simp
      rw [heq2]
      cases body with
      | nil => exact absurd rfl hne
      | cons b bs =>
        have hb : isPromptBodyChar b = true :=
          List.all_eq_true.mp hball b (by simp)
        have hbr : b ≠ '\r' := by
          intro hx
          subst hx
          exact absurd hb (by decide)
        rw [show stripLeadingCR ((b :: bs) ++ ws1 ++ t :: ws2) =
            (b :: bs) ++ ws1 ++ t :: ws2 from by simp [stripLeadingCR, hbr]]
        exact (promptMatchCore_isSome_iff _).mpr
          ⟨b :: bs, ws1, ws2, t, rfl, hne, hlen, hball, hws1, hterm, hws2⟩

/-! ## Claims -/

/-- C1, counterexample: an error raised by the login phase (here tagged
`7`) propagates out of `backup_config` to the caller instead of being
caught inside it — `await self.login()` sits outside the `try` block. -/
theorem C1_counterexample :
    backup_config (Except.error 7) (Except.ok "config".data) "r1".data =
      BackupOutcome.raised 7 := rfl

/-- C1 (amended): every error raised during the capture phase of
`backup_config` is caught exactly once inside `backup_config`, logged,
and converted into a result with no captured configuration, and
`backup_config` then returns its result object; an error raised during
the login phase, however, is not caught and propagates to the caller. -/
theorem C1_amended_thm (e : Nat) (captureRes : Except Nat Str) (name : Str) :
    backup_config (Except.ok ()) (Except.error e) name =
      BackupOutcome.returned ⟨none, none, none⟩ ∧
    backup_config (Except.error e) captureRes name = BackupOutcome.raised e :=
  ⟨rfl, rfl⟩

/-- C2, counterexample: on the stream of the claim, `run_command` does
not return `"Output line 1\nOutput line 2"`; it strips one character too
many (`output[len(wr_cmd) + 1:]` removes `len(cmd) + 2` characters). -/
theorem C2_counterexample :
    run_command "show version".data
        ["show version\nOutput line 1\nOutput line 2\nrouter1#".data] =
      some "utput line 1\nOutput line 2".data ∧
    some "utput line 1\nOutput line 2".data ≠
      some "Output line 1\nOutput line 2".data := by
  constructor
  · decide
  · decide

/-- C2 (amended): `run_command(cmd)` writes `cmd + newline` to the
channel, reads until a prompt is detected, and returns the read output
with exactly the first `len(cmd) + 2` characters removed; in particular,
on the stream of the claim it returns `"utput line 1\nOutput line 2"`. -/
theorem C2_amended_thm (cmd : Str) (chunks : List Str) (out p : Str)
    (h : readUntilPrompt [] chunks = some (out, p)) :
    wr_cmd cmd = cmd ++ ['\n'] ∧
    run_command cmd chunks = some (out.drop (cmd.length + 2)) ∧
    run_command "show version".data
        ["show version\nOutput line 1\nOutput line 2\nrouter1#".data] =
      some "utput line 1\nOutput line 2".data := by
  refine ⟨rfl, ?_, by decide⟩
  rw [run_command, h]
  simp [wr_cmd]

theorem C2_amended_witness :
    run_command "show version".data
        ["show version\nOutput line 1\nOutput line 2\nrouter1#".data] =
      some (("show version\nOutput line 1\nOutput line 2".data).drop
        ("show version".data.length + 2)) :=
  (C2_amended_thm "show version".data
    ["show version\nOutput line 1\nOutput line 2\nrouter1#".data]
    "show version\nOutput line 1\nOutput line 2".data
    "router1#".data (by decide)).2.1

/-- C3: a host-specific credential with both fields non-empty is
prepended, so it is attempted strictly before any global credential;
with either field empty or missing nothing is prepended; and the loop
attempts candidates in list order (the attempted candidates are always a
prefix of the effective candidate list). -/
theorem C3_host_cred_first (hu hp : Option Str) (g : List Cred)
    (attempt : Cred → ConnectOutcome) :
    (truthy hu = true → truthy hp = true →
      effectiveCreds hu hp g = hostCred hu hp :: g) ∧
    (¬(truthy hu = true ∧ truthy hp = true) → effectiveCreds hu hp g = g) ∧
    (∃ n, attemptedCreds attempt (effectiveCreds hu hp g) =
      (effectiveCreds hu hp g).take n) := by
  refine ⟨?_, ?_, attemptedCreds_take attempt _⟩
  · intro h1 h2
    rw [effectiveCreds, if_pos (by rw [h1, h2]; rfl)]
  · intro h
    have hc : ¬((truthy hu && truthy hp) = true) := fun hc =>
      h (by simpa using hc)
    rw [effectiveCreds, if_neg hc]

theorem C3_host_cred_first_witness :
    effectiveCreds (some "admin".data) (some "pw".data)
        [⟨"u1".data, "p1".data⟩] =
      hostCred (some "admin".data) (some "pw".data) ::
        [⟨"u1".data, "p1".data⟩] :=
  (C3_host_cred_first (some "admin".data) (some "pw".data)
    [⟨"u1".data, "p1".data⟩]
    (fun _ => ConnectOutcome.authRejected)).1 (by decide) (by decide)

/-- C4: when every candidate is rejected, `login` raises the dedicated
`PermissionDenied` carrying `len(creds)`, which equals the number of
candidates tried (all of them were). -/
theorem C4_all_rejected_count (attempt : Cred → ConnectOutcome)
    (hu hp : Option Str) (g : List Cred)
    (h : ∀ c ∈ effectiveCreds hu hp g, attempt c = ConnectOutcome.authRejected) :
    login attempt hu hp g =
      LoginResult.allRejected (effectiveCreds hu hp g).length ∧
    attemptedCreds attempt (effectiveCreds hu hp g) = effectiveCreds hu hp g :=
  ⟨loginGo_all_rejected attempt _ _ h, attemptedCreds_all_rejected attempt _ h⟩

theorem C4_all_rejected_count_witness :
    login (fun _ => ConnectOutcome.authRejected) (some "admin".data)
      (some "pw".data) [⟨"u1".data, "p1".data⟩] =
      LoginResult.allRejected 2 :=
  (C4_all_rejected_count (fun _ => ConnectOutcome.authRejected)
    (some "admin".data) (some "pw".data) [⟨"u1".data, "p1".data⟩]
    (fun _ _ => rfl)).1

/-- C5: candidates before an attempt that fails with a
non-`PermissionDenied` error are the only other ones tried: the error
propagates immediately out of the loop and no later candidate is
attempted. -/
theorem C5_other_error_propagates (attempt : Cred → ConnectOutcome)
    (total k : Nat) (l1 l2 : List Cred) (c : Cred)
    (h1 : ∀ x ∈ l1, attempt x = ConnectOutcome.authRejected)
    (h2 : attempt c = ConnectOutcome.otherErr k) :
    loginGo attempt total (l1 ++ c :: l2) = LoginResult.error k ∧
    attemptedCreds attempt (l1 ++ c :: l2) = l1 ++ [c] := by
  induction l1 with
  | nil =>
    constructor
    · rw [List.nil_append, loginGo, h2]
    · rw [List.nil_append, attemptedCreds, h2]
      rfl
  | cons x xs ih =>
    have hx := h1 x (by simp)
    have ih' := ih (fun a ha => h1 a (by simp [ha]))
    constructor
    · rw [List.cons_append, loginGo, hx, ih'.1]
    · rw [List.cons_append, attemptedCreds, hx, ih'.2]
      rfl

theorem C5_other_error_propagates_witness :
    loginGo
      (fun c => if c.username = ['a'] then ConnectOutcome.authRejected
        else ConnectOutcome.otherErr 5)
      3 ([⟨['a'], ['p']⟩] ++ ⟨['b'], ['q']⟩ :: [⟨['z'], ['w']⟩]) =
      LoginResult.error 5 :=
  (C5_other_error_propagates
    (fun c => if c.username = ['a'] then ConnectOutcome.authRejected
      else ConnectOutcome.otherErr 5)
    3 5 [⟨['a'], ['p']⟩] [⟨['z'], ['w']⟩] ⟨['b'], ['q']⟩
    (by decide) (by decide)).1

/-- C8: a transport that reaches the initial prompt but hangs during the
paging-disable phase yields the phase-timeout failure whose structured
context records `at_prompt = True` and `paging_disabled = False`. -/
theorem C8_timeout_attribution (showPhase : Option Str) :
    get_running_config_interactive PhaseOutcome.completes PhaseOutcome.timesOut
      showPhase = GetConfigResult.phaseTimeout true false := rfl

/-- C10: after a capture that completes, `save_config` runs if and only
if the captured text is non-empty; on empty text no file is written and
`save_file` stays unset. -/
theorem C10_persist_iff_nonempty (name cfg : Str) :
    backup_config (Except.ok ()) (Except.ok cfg) name =
      BackupOutcome.returned
        ⟨some cfg,
          if cfg = [] then none else some (name ++ ".cfg".data),
          if cfg = [] then none else some (save_config name cfg)⟩ := by
  by_cases hc : cfg = []
  · subst hc
    rfl
  · have hne : cfg.isEmpty = false := by
      cases cfg with
      | nil => exact absurd rfl hc
      | cons a l => rfl
    simp [backup_config, configTruthy, hne, hc, save_config]

/-- C6, counterexample: the pattern's `\s*` between the name and the
terminator accepts `"router1 #"`, a line containing a character outside
the class `[a-z0-9.\-_@()/:]` before the terminator, which the claim
says is rejected. -/
theorem C6_counterexample :
    promptMatch "router1 #".data = some "router1 #".data ∧
    (' ' ∈ "router1 #".data ∧ isPromptBodyChar ' ' = false) := by
  constructor
  · decide
  · constructor
    · decide
    · decide

/-- C6 (amended): the Prompt Matcher accepts exactly the candidate lines
consisting of 1 to 32 characters drawn from `[a-z0-9.\-_@()/:]`
(case-insensitive), then optional whitespace, then one of `#`, `>`, `$`,
then optional trailing whitespace, all optionally preceded by a carriage
return; in particular it matches `router1#`, `SW-core>`,
`host.example.com$` with or without a leading carriage return, and
rejects lines with more than 32 name characters before the terminator or
with a character that is neither in the class nor whitespace. -/
theorem C6_amended_thm :
    (∀ s : Str, (promptMatch s).isSome = true ↔ promptShape s) ∧
    (promptMatch "router1#".data).isSome = true ∧
    (promptMatch "SW-core>".data).isSome = true ∧
    (promptMatch "host.example.com$".data).isSome = true ∧
    (promptMatch ('\r' :: "router1#".data)).isSome = true ∧
    (promptMatch ('\r' :: "SW-core>".data)).isSome = true ∧
    (promptMatch ('\r' :: "host.example.com$".data)).isSome = true ∧
    promptMatch (List.replicate 33 'a' ++ ['#']) = none ∧
    promptMatch "rou!ter#".data = none := by
  refine ⟨promptMatch_isSome_iff, ?_, ?_, ?_, ?_, ?_, ?_, ?_, ?_⟩ <;> decide

/-- C7, counterexample: when the accumulated buffer contains no newline
at the moment the prompt is recognized (here the single delivered chunk
is the bare prompt `"router1#"`), `rfind` returns `-1` and
`output[0:-1]` yields the prompt minus its final character — not the
empty buffered text that strictly precedes the prompt line. -/
theorem C7_counterexample :
    readUntilPrompt [] ["router1#".data] =
      some ("router1".data, "router1#".data) ∧
    "router1".data ≠ ([] : Str) := by
  constructor
  · decide
  · decide

/-- C7 (amended): for every chunk sequence whose concatenation ends in a
recognizable prompt line, `read_until_prompt` accumulates the chunks,
re-tests the text following the last newline of the full buffer after
each read (so a prompt split across reads is still detected, at the
first read index `k` where the test fires), records the matched prompt
text, and returns: all buffered text strictly before the buffer's last
newline when the buffer contains one (the prompt line and the newline
preceding it both excluded), and the buffer minus its final character
when it contains none. -/
theorem C7_amended_thm (chunks : List Str)
    (h : detectPrompt chunks.flatten ≠ none) :
    ∃ out p k, readUntilPrompt [] chunks = some (out, p) ∧
      1 ≤ k ∧ k ≤ chunks.length ∧
      (∀ j, j < k → detectPrompt ((chunks.take j).flatten) = none) ∧
      ((∃ tail, (chunks.take k).flatten = out ++ '\n' :: tail ∧
          '\n' ∉ tail ∧ promptMatch tail = some p) ∨
        ('\n' ∉ (chunks.take k).flatten ∧
          out = ((chunks.take k).flatten).dropLast ∧
          promptMatch ((chunks.take k).flatten) = some p)) := by
  have hchunks : chunks ≠ [] := by
    intro hc
    subst hc
    exact h (by decide)
  have hsome := readUntilPrompt_complete chunks [] hchunks (by simpa using h)
  obtain ⟨⟨out, p⟩, hr⟩ := Option.isSome_iff_exists.mp hsome
  obtain ⟨k, hk1, hk2, hdet, hprev⟩ := readUntilPrompt_spec chunks [] out p hr
  refine ⟨out, p, k, hr, hk1, hk2, ?_, ?_⟩
  · intro j hj
    cases j with
    | zero =>
      have h0 : detectPrompt ([] : Str) = none := by decide
      simpa using h0
    | succ j' => simpa using hprev (j' + 1) (by omega) hj
  · have hdet' : detectPrompt ((chunks.take k).flatten) = some (out, p) := by
      simpa using hdet
    exact detectPrompt_eq_some _ out p hdet'

theorem C7_amended_witness :
    ∃ out p k,
      readUntilPrompt [] ["show ver\nrout".data, "er1#".data] =
        some (out, p) ∧
      1 ≤ k ∧ k ≤ (["show ver\nrout".data, "er1#".data] : List Str).length ∧
      (∀ j, j < k → detectPrompt
        (((["show ver\nrout".data, "er1#".data] : List Str).take j).flatten) =
          none) ∧
      ((∃ tail, ((["show ver\nrout".data, "er1#".data] : List Str).take
            k).flatten = out ++ '\n' :: tail ∧ '\n' ∉ tail ∧
          promptMatch tail = some p) ∨
        ('\n' ∉ ((["show ver\nrout".data, "er1#".data] : List Str).take
            k).flatten ∧
          out = (((["show ver\nrout".data, "er1#".data] : List Str).take
            k).flatten).dropLast ∧
          promptMatch (((["show ver\nrout".data,
            "er1#".data] : List Str).take k).flatten) = some p)) :=
  C7_amended_thm ["show ver\nrout".data, "er1#".data] (by decide)

/-- C9: over the spec-modelled admission throttle, (1) in every state
reachable from `Sem.init n` the number of slot holders — the sessions
inside their connect phase — never exceeds the configured limit; (2) a
queued acquirer leaves the wait queue only through a `release` step by a
slot holder, and the step grants the slot to exactly that single,
front-most waiter; (3) any release dequeues at most the single head
waiter. -/
theorem C9_throttle_thm :
    (∀ (n : Nat) (s : Sem), SemReachable n s →
      s.holders.length ≤ s.limit ∧ s.limit = n) ∧
    (∀ (l : SemLabel) (s s' : Sem) (t : Nat), SemStep l s s' →
      t ∈ s.waiters → t ∉ s'.waiters →
      ∃ u rest, l = SemLabel.rel u ∧ u ∈ s.holders ∧
        s.waiters = t :: rest ∧ s'.waiters = rest ∧
        s'.holders = t :: s.holders.erase u) ∧
    (∀ (u : Nat) (s s' : Sem), SemStep (SemLabel.rel u) s s' →
      s'.waiters = s.waiters.tail) := by
  refine ⟨?_, ?_, ?_⟩
  · intro n s h
    obtain ⟨hlim, hsum, _⟩ := semReachable_inv n s h
    exact ⟨by omega, hlim⟩
  · intro l s s' t hstep ht ht'
    cases hstep with
    | acquireNow s t0 h0 => exact absurd ht ht'
    | acquireWait s t0 h0 =>
      exact absurd (by simp [ht] : t ∈ s.waiters ++ [t0]) ht'
    | releaseNoWaiter s t0 h0 hw =>
      rw [hw] at ht
      exact absurd ht (by simp)
    | releaseWake s t0 w rest h0 hw =>
      rw [hw] at ht
      rcases List.mem_cons.mp ht with rfl | hmem
      · exact ⟨t0, rest, rfl, h0, hw, rfl, rfl⟩
      · exact absurd hmem ht'
  · intro u s s' hstep
    cases hstep with
    | releaseNoWaiter s t h0 hw => rw [hw]; rfl
    | releaseWake s t w rest h0 hw => rw [hw]; rfl

theorem C9_throttle_witness :
    ((⟨2, 0, [2, 1], []⟩ : Sem).holders.length ≤
      (⟨2, 0, [2, 1], []⟩ : Sem).limit) ∧
    (∃ u rest, SemLabel.rel 0 = SemLabel.rel u ∧ u ∈ [1, 0] ∧
      ([2] : List Nat) = 2 :: rest ∧ ([] : List Nat) = rest ∧
      ([2, 1] : List Nat) = 2 :: List.erase [1, 0] u) := by
  constructor
  · have h0 : SemReachable 2 (Sem.init 2) := SemReachable.init
    have h1 : SemReachable 2 ⟨2, 1, [0], []⟩ :=
      SemReachable.step (SemLabel.acq 0) _ _ h0
        (SemStep.acquireNow (Sem.init 2) 0 (by decide))
    have h2 : SemReachable 2 ⟨2, 0, [1, 0], []⟩ :=
      SemReachable.step (SemLabel.acq 1) _ _ h1
        (SemStep.acquireNow ⟨2, 1, [0], []⟩ 1 (by decide))
    have h3 : SemReachable 2 ⟨2, 0, [1, 0], [2]⟩ :=
      SemReachable.step (SemLabel.acq 2) _ _ h2
        (SemStep.acquireWait ⟨2, 0, [1, 0], []⟩ 2 rfl)
    have h4 : SemReachable 2 ⟨2, 0, [2, 1], []⟩ :=
      SemReachable.step (SemLabel.rel 0) _ _ h3
        (SemStep.releaseWake ⟨2, 0, [1, 0], [2]⟩ 0 2 [] (by simp) rfl)
    exact (C9_throttle_thm.1 2 _ h4).1
  · have hstep : SemStep (SemLabel.rel 0) (⟨2, 0, [1, 0], [2]⟩ : Sem)
        ⟨2, 0, [2, 1], []⟩ :=
      SemStep.releaseWake ⟨2, 0, [1, 0], [2]⟩ 0 2 [] (by simp) rfl
    exact C9_throttle_thm.2.1 (SemLabel.rel 0) ⟨2, 0, [1, 0], [2]⟩
      ⟨2, 0, [2, 1], []⟩ 2 hstep (by simp) (by simp)

end Netcfgbu
